import Mathlib

/-!
Verification of the osFree SMP core (scheduler, NUMA buddy allocator,
synchronization primitives) against its natural-language specification.

The definitions below are a shallow embedding of the C sources:

* `include/os3/spinlock.h` — ticket spinlock operations on the 32-bit
  `head_tail` word (`head` in bits 0-15, `tail` in bits 16-31, matching the
  little-endian layout of the union in the C struct);
* `kernel/smp/smp.c` — `smp_send_ipi`;
* `include/os3/scheduler.h` — priority constants, thread/run-queue records,
  `os2_to_internal_priority`;
* `kernel/sched/scheduler.c` — `find_first_bit`, `pick_next_thread`,
  `enqueue_thread`, `dequeue_thread`, `trigger_load_balance`,
  `preempt_enable`;
* `os3/api/doscalls_thread.c` — `DosExitCritSec`;
* `kernel/mm/numa.c` — the per-node buddy allocator
  (`numa_alloc_pages`, `numa_alloc_pages_strict`, `numa_free_pages`) and
  `numa_build_fallback_order`.

Machine integers are modelled as `Nat` (with explicit `% 2^w` where the C
code can overflow in a way that matters to the properties proved here);
C linked lists become Lean lists (`list_add` prepends, `list_add_tail`
appends, `list_first_entry` is `head?`); pointers to threads/pages become
the records/page-frame numbers themselves; fallible C functions returning
`NULL` become `Option`.
-/

/-! ## Ticket spinlock (include/os3/spinlock.h)

The lock is one 32-bit word `head_tail`.  With the little-endian union of
the source, `head` (next ticket served) is the low 16 bits and `tail`
(next ticket issued) is the high 16 bits, so `old >> 16` reads the tail
and `old & 0xFFFF` reads the head, exactly as `spin_trylock` does. -/

/-- Low 16 bits of the lock word: the `head` counter (next ticket served). -/
def lock_head (v : Nat) : Nat := v &&& 0xFFFF

/-- High 16 bits of the lock word: the `tail` counter (next ticket issued). -/
def lock_tail (v : Nat) : Nat := v >>> 16

/-- The `spin_trylock` of spinlock.h on the lock word `v`: return value
(1 = acquired, 0 = busy) together with the new lock word.  The compare-
exchange always succeeds in the sequential model, so acquiring adds
`0x10000` (one tail ticket) to the 32-bit word. -/
def spin_trylock (v : Nat) : Nat × Nat :=
  if (v >>> 16) ≠ (v &&& 0xFFFF) then (0, v)
  else (1, (v + 0x10000) % 2 ^ 32)

/-- The `spin_is_locked` of spinlock.h: the lock is held iff the tail and
head halves of the word differ. -/
def spin_is_locked (v : Nat) : Bool := (v >>> 16) != (v &&& 0xFFFF)

/-- The `spin_unlock` of spinlock.h: a 16-bit fetch-add of 1 on the `head`
half of the word; the tail half is untouched. -/
def spin_unlock (v : Nat) : Nat :=
  2 ^ 16 * lock_tail v + (lock_head v + 1) % 2 ^ 16

/-! ## IPI delivery (kernel/smp/smp.c, include/os3/smp.h, include/os3/apic.h) -/

/-- IPI kind `IPI_RESCHEDULE` of smp.h. -/
def IPI_RESCHEDULE : Nat := 0x01
/-- IPI kind `IPI_TLB_FLUSH` of smp.h. -/
def IPI_TLB_FLUSH : Nat := 0x02
/-- IPI kind `IPI_CALL_FUNC` of smp.h. -/
def IPI_CALL_FUNC : Nat := 0x03
/-- IPI kind `IPI_STOP` of smp.h. -/
def IPI_STOP : Nat := 0x04
/-- Interrupt vector `VECTOR_IPI_RESCHED` of apic.h. -/
def VECTOR_IPI_RESCHED : Nat := 0xFA
/-- Interrupt vector `VECTOR_IPI_CALL` of apic.h. -/
def VECTOR_IPI_CALL : Nat := 0xF9
/-- Interrupt vector `VECTOR_IPI_TLB` of apic.h. -/
def VECTOR_IPI_TLB : Nat := 0xF8
/-- Interrupt vector `VECTOR_IPI_STOP` of apic.h. -/
def VECTOR_IPI_STOP : Nat := 0xF7

/-- The fields of the global `smp_info` that `smp_send_ipi` reads: the
online CPU count and the per-CPU hardware APIC id. -/
structure SmpInfo where
  cpu_count : Nat
  apic_id : Nat → Nat

/-- The `smp_send_ipi` of smp.c.  Its only effect is the final
`lapic_send_ipi(apic_id, vector)` call, modelled as the returned pair;
`none` means the function returned without sending anything (it mutates no
other state at all). -/
def smp_send_ipi (s : SmpInfo) (cpu_id ipi_type : Nat) : Option (Nat × Nat) :=
  if cpu_id ≥ s.cpu_count then none
  else if ipi_type = IPI_RESCHEDULE then some (s.apic_id cpu_id, VECTOR_IPI_RESCHED)
  else if ipi_type = IPI_TLB_FLUSH then some (s.apic_id cpu_id, VECTOR_IPI_TLB)
  else if ipi_type = IPI_CALL_FUNC then some (s.apic_id cpu_id, VECTOR_IPI_CALL)
  else if ipi_type = IPI_STOP then some (s.apic_id cpu_id, VECTOR_IPI_STOP)
  else none

/-! ## Priority constants and the OS/2 priority mapping (include/os3/scheduler.h) -/

/-- Scheduling class `SCHED_CLASS_IDLE`. -/
def SCHED_CLASS_IDLE : Nat := 0
/-- Scheduling class `SCHED_CLASS_REGULAR`. -/
def SCHED_CLASS_REGULAR : Nat := 1
/-- Scheduling class `SCHED_CLASS_TIMECRIT`. -/
def SCHED_CLASS_TIMECRIT : Nat := 2
/-- Scheduling class `SCHED_CLASS_SERVER`. -/
def SCHED_CLASS_SERVER : Nat := 3
/-- Scheduling class `SCHED_CLASS_REALTIME`. -/
def SCHED_CLASS_REALTIME : Nat := 4
/-- Number of scheduling classes (`NUM_SCHED_CLASSES`). -/
def NUM_SCHED_CLASSES : Nat := 5
/-- Priority levels per class (`PRIO_LEVELS_PER_CLASS`). -/
def PRIO_LEVELS_PER_CLASS : Nat := 32

/-- Thread flag `THREAD_FLAG_KERNEL`. -/
def THREAD_FLAG_KERNEL : Nat := 1
/-- Thread flag `THREAD_FLAG_IDLE`. -/
def THREAD_FLAG_IDLE : Nat := 2
/-- Thread flag `THREAD_FLAG_NEED_RESCHED`. -/
def THREAD_FLAG_NEED_RESCHED : Nat := 4
/-- Thread flag `THREAD_FLAG_MIGRATING`. -/
def THREAD_FLAG_MIGRATING : Nat := 8
/-- Thread flag `THREAD_FLAG_BOUND`. -/
def THREAD_FLAG_BOUND : Nat := 16

/-- Thread state `THREAD_STATE_READY`. -/
def THREAD_STATE_READY : Nat := 0
/-- Thread state `THREAD_STATE_RUNNING`. -/
def THREAD_STATE_RUNNING : Nat := 1
/-- Thread state `THREAD_STATE_BLOCKED`. -/
def THREAD_STATE_BLOCKED : Nat := 2

/-- A C `(uint8_t)` conversion applied to a signed value: the value modulo
256.  `apply_priority_change` (doscalls_thread.c) passes the signed level
`new_prio - 16` to the `uint8_t prtylevel` parameter of
`os2_to_internal_priority` through exactly this conversion. -/
def uint8_of_int (z : Int) : Nat := (z.emod 256).toNat

/-- The `os2_to_internal_priority` of scheduler.h.  Both parameters are
`uint8_t`, so a negative OS/2 delta arrives here already reduced mod 256;
`(prtylevel + 31) / 2` is computed in `int` and then truncated back to
`uint8_t` on the assignment to `level` (the `% 256`, which never truncates
since the quotient is at most 143). -/
def os2_to_internal_priority (prtyclass prtylevel : Nat) : Nat :=
  let sched_class :=
    if prtyclass = 1 then SCHED_CLASS_IDLE
    else if prtyclass = 2 then SCHED_CLASS_REGULAR
    else if prtyclass = 3 then SCHED_CLASS_TIMECRIT
    else if prtyclass = 4 then SCHED_CLASS_SERVER
    else SCHED_CLASS_REGULAR
  let level := ((prtylevel + 31) / 2) % 256
  let level := if level > 31 then 31 else level
  sched_class * PRIO_LEVELS_PER_CLASS + level

/-- Modelled from the spec: the priority mapping the specification states
for the class-mapping function — external class c in 1..4 maps directly to
internal class c-1 (Idle, Regular, TimeCritical, Server) and the internal
level is `(delta + 31) / 2` clamped into [0, 31], the delta being signed.
Used only to compare the specified mapping with the implemented one. -/
def spec_internal_priority (prtyclass : Nat) (delta : Int) : Nat :=
  (prtyclass - 1) * 32 + (max 0 (min 31 ((delta + 31) / 2))).toNat

/-! ## Critical sections (os3/api/doscalls_thread.c, kernel/sched/scheduler.c)

The per-process and per-CPU state that `DosEnterCritSec` / `DosExitCritSec`
and the preemption counter touch.  `schedule()` is abstracted to the
`sched_invoked` flag: the underflow path of `DosExitCritSec` returns before
reaching any of it, which is all the claim about that path needs. -/

/-- Status codes of the OS/2 thread API.  Modelled from the spec: the
numeric values live in os3/doscalls.h, which is not among the repository
files; only their distinctness matters here. -/
inductive APIStatus where
  | no_error
  | invalid_parameter
  | critsec_underflow
  | not_frozen
deriving DecidableEq, Repr

/-- Process + per-CPU state read and written by the critical-section API:
the process's `critsec_count` and `critsec_lock`, the per-CPU
`preempt_counter` (a C `int`), and the current thread's
`THREAD_FLAG_NEED_RESCHED` bit as `need_resched`. -/
structure CritState where
  critsec_count : Nat
  critsec_lock : Nat
  preempt_counter : Int
  need_resched : Bool
  sched_invoked : Bool
deriving DecidableEq, Repr

/-- The `preempt_disable` of scheduler.c: increment the per-CPU counter. -/
def preempt_disable (s : CritState) : CritState :=
  { s with preempt_counter := s.preempt_counter + 1 }

/-- The `preempt_enable` of scheduler.c: decrement the per-CPU counter and,
when it reaches zero with the reschedule flag set, call `schedule()`
(recorded in `sched_invoked`). -/
def preempt_enable (s : CritState) : CritState :=
  let s1 := { s with preempt_counter := s.preempt_counter - 1 }
  if s1.preempt_counter = 0 ∧ s1.need_resched then
    { s1 with sched_invoked := true }
  else s1

/-- The `DosExitCritSec` of doscalls_thread.c: on a zero critical-section
count it returns `ERROR_CRITSEC_UNDERFLOW` before touching anything;
otherwise it decrements the count, calls `preempt_enable`, and releases
the process's critical-section lock. -/
def DosExitCritSec (s : CritState) : APIStatus × CritState :=
  if s.critsec_count = 0 then (APIStatus.critsec_underflow, s)
  else
    let s1 := { s with critsec_count := s.critsec_count - 1 }
    let s2 := preempt_enable s1
    (APIStatus.no_error, { s2 with critsec_lock := spin_unlock s2.critsec_lock })

/-! ## Scheduler data model (include/os3/scheduler.h) -/

/-- The fields of `thread_t` that the embedded scheduler operations read or
write.  `cpu_affinity` is the 64-bit affinity mask as a `Nat`. -/
structure Thread where
  tid : Nat
  sched_class : Nat
  base_priority : Nat
  dynamic_priority : Nat
  state : Nat
  flags : Nat
  timeslice : Nat
  timeslice_max : Nat
  last_run : Nat
  cpu_affinity : Nat
  last_cpu : Nat
  preferred_cpu : Nat
deriving DecidableEq, Repr

/-- A `run_queue_t`: `queues c p` is the FIFO of `queues[c][p].queue`
(head first) and `counts c p` its `count` field; `active_bitmap` and
`class_bitmap` are the 32-bit bitmap words. -/
structure RunQueue where
  cpu_id : Nat
  queues : Nat → Nat → List Thread
  counts : Nat → Nat → Nat
  active_bitmap : Nat → Nat
  class_bitmap : Nat
  nr_running : Nat
  current : Option Thread
  idle : Thread

/-- The global scheduler/SMP state the embedded operations touch:
`scheduler.runqueues`, `smp_info.cpu_count`, `smp_info.online_mask`, the
calling CPU (`smp_processor_id()`), and the clock (`get_time_ns()`). -/
structure SchedState where
  runqueues : Nat → RunQueue
  cpu_count : Nat
  online_mask : Nat
  current_cpu : Nat
  time : Nat

/-! ## Scheduler operations (kernel/sched/scheduler.c) -/

/-- The `find_first_bit` of scheduler.c (portable branch): index of the
least significant set bit, -1 for zero.  The GNU branch
(`__builtin_ffs(word) - 1`) computes the same value. -/
def find_first_bit (w : Nat) : Int :=
  if w = 0 then -1
  else
    let pw := if w &&& 0xFFFF = 0 then (16, w >>> 16) else (0, w)
    let pw := if pw.2 &&& 0xFF = 0 then (pw.1 + 8, pw.2 >>> 8) else pw
    let pw := if pw.2 &&& 0xF = 0 then (pw.1 + 4, pw.2 >>> 4) else pw
    let pw := if pw.2 &&& 0x3 = 0 then (pw.1 + 2, pw.2 >>> 2) else pw
    let pos := if pw.2 &&& 0x1 = 0 then pw.1 + 1 else pw.1
    (pos : Int)

/-- One iteration of the outer class loop of `pick_next_thread` for class
`c`: skip the class unless its `class_bitmap` bit is set, bit-scan
`active_bitmap[c]`, then run the inner loop `for (; p < 32; p++)`, which
tests the bit `31 - p` and reads the queue `queues[c][31 - p]`, returning
the first entry of the first non-empty queue it reaches. -/
def pick_scan_class (rq : RunQueue) (c : Nat) : Option Thread :=
  if ! rq.class_bitmap.testBit c then none
  else
    let p0 := find_first_bit (rq.active_bitmap c)
    if p0 < 0 then none
    else
      ((List.range PRIO_LEVELS_PER_CLASS).drop p0.toNat).findSome? fun p =>
        if ! (rq.active_bitmap c).testBit (31 - p) then none
        else (rq.queues c (31 - p)).head?

/-- The `pick_next_thread` of scheduler.c: the idle thread when
`nr_running == 0`, otherwise the class scan from the highest class down,
falling through to the idle thread. -/
def pick_next_thread (rq : RunQueue) : Thread :=
  if rq.nr_running = 0 then rq.idle
  else
    (((List.range NUM_SCHED_CLASSES).reverse).findSome? (pick_scan_class rq)).getD rq.idle

/-- The CPU-selection prologue of `enqueue_thread` (scheduler.c lines
177-185): use `preferred_cpu` when its bit is set in the affinity mask,
otherwise the first `cpu < smp_info.cpu_count` whose affinity bit is set
(the loop leaves `cpu == cpu_count` when there is none).  The online mask
is not consulted. -/
def enqueue_select_cpu (affinity preferred cpu_count : Nat) : Nat :=
  if affinity.testBit preferred then preferred
  else ((List.range cpu_count).find? fun c => affinity.testBit c).getD cpu_count

/-- Modelled from the spec: the CPU selection the specification states for
`enqueue_thread` — `preferred_cpu` if allowed by affinity, else the first
bit set in `affinity & online_mask`.  Used only to compare the specified
selection with the implemented one. -/
def enqueue_select_cpu_spec (affinity preferred online_mask : Nat) : Nat :=
  if affinity.testBit preferred then preferred
  else ((List.range 64).find? fun c => (affinity &&& online_mask).testBit c).getD 64

/-- The `set_need_resched` of scheduler.h: set `THREAD_FLAG_NEED_RESCHED`
on the calling CPU's current thread (a no-op here when that CPU has no
current thread, where the C would fault). -/
def set_need_resched (s : SchedState) : SchedState :=
  let cpu := s.current_cpu
  let rq := s.runqueues cpu
  match rq.current with
  | some cur =>
      let rq1 := { rq with current := some { cur with flags := cur.flags ||| THREAD_FLAG_NEED_RESCHED } }
      { s with runqueues := Function.update s.runqueues cpu rq1 }
  | none => s

/-- The `enqueue_thread` of scheduler.c: select the CPU, append the thread
to `queues[class][priority % 32]`, bump the count and `nr_running`, set the
two bitmap bits (`1 << (31 - p)` in `active_bitmap[c]`, `1 << c` in
`class_bitmap`), mark the thread Ready, and finally set the reschedule flag
when the enqueued thread's dynamic priority beats the target queue's
current thread (the IPI sent to a remote CPU carries no modelled state). -/
def enqueue_thread (s : SchedState) (t : Thread) : SchedState :=
  let cpu := enqueue_select_cpu t.cpu_affinity t.preferred_cpu s.cpu_count
  let rq := s.runqueues cpu
  let c := t.sched_class
  let p := t.dynamic_priority % PRIO_LEVELS_PER_CLASS
  let t1 := { t with state := THREAD_STATE_READY }
  let rq1 := { rq with
    queues := Function.update rq.queues c (Function.update (rq.queues c) p (rq.queues c p ++ [t1])),
    counts := Function.update rq.counts c (Function.update (rq.counts c) p (rq.counts c p + 1)),
    nr_running := rq.nr_running + 1,
    active_bitmap := Function.update rq.active_bitmap c (rq.active_bitmap c ||| (1 <<< (31 - p))),
    class_bitmap := rq.class_bitmap ||| (1 <<< c) }
  let s1 := { s with runqueues := Function.update s.runqueues cpu rq1 }
  match ((s1.runqueues cpu).current) with
  | some cur => if t.dynamic_priority > cur.dynamic_priority then set_need_resched s1 else s1
  | none => s1

/-- The `dequeue_thread` of scheduler.c: remove the thread from
`queues[class][priority % 32]` of the run queue of its `last_cpu`,
decrement the count and `nr_running`, and clear the level bit — and, when
the class's `active_bitmap` word reaches zero, the class bit too. -/
def dequeue_thread (s : SchedState) (t : Thread) : SchedState :=
  let cpu := t.last_cpu
  let rq := s.runqueues cpu
  let c := t.sched_class
  let p := t.dynamic_priority % PRIO_LEVELS_PER_CLASS
  let cnt := rq.counts c p - 1
  let abm :=
    if cnt = 0 then
      Function.update rq.active_bitmap c (rq.active_bitmap c &&& ((2 ^ 32 - 1) ^^^ (1 <<< (31 - p))))
    else rq.active_bitmap
  let rq1 := { rq with
    queues := Function.update rq.queues c (Function.update (rq.queues c) p ((rq.queues c p).erase t)),
    counts := Function.update rq.counts c (Function.update (rq.counts c) p cnt),
    nr_running := rq.nr_running - 1,
    active_bitmap := abm,
    class_bitmap := if cnt = 0 ∧ abm c = 0 then rq.class_bitmap &&& ((2 ^ 32 - 1) ^^^ (1 <<< c))
                    else rq.class_bitmap }
  { s with runqueues := Function.update s.runqueues cpu rq1 }

/-- The busiest-CPU scan of `trigger_load_balance`: fold over the CPUs,
skipping the caller and offline CPUs, taking a CPU whenever its load
exceeds the running maximum by more than the imbalance threshold of 1.
The accumulator is `(max_load, busiest_cpu)`, seeded with the caller. -/
def find_busiest_cpu (s : SchedState) (this_cpu this_load : Nat) : Nat × Nat :=
  (List.range s.cpu_count).foldl
    (fun acc cpu =>
      if cpu = this_cpu then acc
      else if ! s.online_mask.testBit cpu then acc
      else if (s.runqueues cpu).nr_running > acc.1 + 1 then ((s.runqueues cpu).nr_running, cpu)
      else acc)
    (this_load, this_cpu)

/-- The eligibility test of the migration scan in `trigger_load_balance`:
affine to the pulling CPU, not bound, and not run within the last 1 ms
(the `uint64_t` subtraction `now - last_run` is taken mod 2^64). -/
def can_migrate (t : Thread) (this_cpu now : Nat) : Bool :=
  t.cpu_affinity.testBit this_cpu && (t.flags &&& THREAD_FLAG_BOUND == 0) &&
    decide (1000000 ≤ (now + 2 ^ 64 - t.last_run) % 2 ^ 64)

/-- The nested scan of `trigger_load_balance`: classes from 0 up, levels
from 0 up, first eligible thread in FIFO order; the position found is
returned with the thread. -/
def find_migratable (rq : RunQueue) (this_cpu now : Nat) : Option (Nat × Nat × Thread) :=
  (List.range NUM_SCHED_CLASSES).findSome? fun c =>
    (List.range PRIO_LEVELS_PER_CLASS).findSome? fun p =>
      ((rq.queues c p).find? fun t => can_migrate t this_cpu now).map fun t => (c, p, t)

/-- The `trigger_load_balance` of scheduler.c.  After the busiest-CPU scan
and the migration scan, the found thread is detached from the source queue
(count, `nr_running`, and — when the level empties — the `active_bitmap`
bit are updated, but `class_bitmap` is not touched), marked migrating with
`preferred_cpu` retargeted, enqueued through `enqueue_thread`, and finally
has its migrating flag cleared (through the pointer now stored in the
destination queue, modelled by a tid-keyed rewrite of the queues). -/
def trigger_load_balance (s : SchedState) : SchedState :=
  let this_cpu := s.current_cpu
  let this_load := (s.runqueues this_cpu).nr_running
  let busiest_cpu := (find_busiest_cpu s this_cpu this_load).2
  if busiest_cpu = this_cpu then s
  else
    let brq := s.runqueues busiest_cpu
    match find_migratable brq this_cpu s.time with
    | none => s
    | some (c, p, t) =>
      let cnt := brq.counts c p - 1
      let brq1 := { brq with
        queues := Function.update brq.queues c (Function.update (brq.queues c) p ((brq.queues c p).erase t)),
        counts := Function.update brq.counts c (Function.update (brq.counts c) p cnt),
        nr_running := brq.nr_running - 1,
        active_bitmap :=
          if cnt = 0 then
            Function.update brq.active_bitmap c
              (brq.active_bitmap c &&& ((2 ^ 32 - 1) ^^^ (1 <<< (31 - p))))
          else brq.active_bitmap }
      let t1 := { t with preferred_cpu := this_cpu, flags := t.flags ||| THREAD_FLAG_MIGRATING }
      let s1 := { s with runqueues := Function.update s.runqueues busiest_cpu brq1 }
      let s2 := enqueue_thread s1 t1
      { s2 with runqueues := fun cpu =>
          let rq := s2.runqueues cpu
          { rq with queues := fun c' p' =>
              (rq.queues c' p').map fun th =>
                if th.tid = t.tid then { th with flags := th.flags &&& ((2 ^ 32 - 1) ^^^ THREAD_FLAG_MIGRATING) }
                else th } }

/-! ## The documented run-queue invariant

Spec §3/§8: `nr_running` equals the sum of all `queues[c][l].count`; the
bit the implementation uses for level l — bit `31 - l`, the one
`enqueue_thread` and `dequeue_thread` set and clear — is set in
`active_bitmap[c]` iff `queues[c][l].count > 0`; bit c of `class_bitmap`
is set iff `active_bitmap[c]` is non-zero. -/

/-- Decidable check of the documented counting/bitmap invariant of one run
queue. -/
def rq_invariant_ok (rq : RunQueue) : Bool :=
  (rq.nr_running ==
    ((List.range NUM_SCHED_CLASSES).map fun c =>
      ((List.range PRIO_LEVELS_PER_CLASS).map fun l => rq.counts c l).sum).sum) &&
  ((List.range NUM_SCHED_CLASSES).all fun c =>
    (List.range PRIO_LEVELS_PER_CLASS).all fun l =>
      (rq.active_bitmap c).testBit (31 - l) == decide (0 < rq.counts c l)) &&
  ((List.range NUM_SCHED_CLASSES).all fun c =>
    rq.class_bitmap.testBit c == decide (rq.active_bitmap c ≠ 0))

/-! ## Concrete scheduler states

States assembled exactly as the scheduler's own operations build them
(bitmap bit `31 - level`, counts matching list lengths), used to evaluate
the operations at specific inputs. -/

/-- Idle thread of CPU 0 as `sched_init_cpu` builds it: class Idle,
priority 0, bound to its CPU. -/
def exIdle0 : Thread :=
  { tid := 1000, sched_class := SCHED_CLASS_IDLE, base_priority := 0, dynamic_priority := 0,
    state := THREAD_STATE_RUNNING, flags := THREAD_FLAG_KERNEL ||| THREAD_FLAG_IDLE ||| THREAD_FLAG_BOUND,
    timeslice := 0, timeslice_max := 31, last_run := 0, cpu_affinity := 1, last_cpu := 0,
    preferred_cpu := 0 }

/-- Idle thread of CPU 1, same shape as `exIdle0`. -/
def exIdle1 : Thread :=
  { exIdle0 with tid := 1001, cpu_affinity := 2, last_cpu := 1, preferred_cpu := 1 }

/-- A Regular-class thread at level 5 (dynamic priority 5), affine to CPUs
0 and 1, idle for a long time (migratable). -/
def exThreadA : Thread :=
  { tid := 1, sched_class := SCHED_CLASS_REGULAR, base_priority := 16, dynamic_priority := 5,
    state := THREAD_STATE_READY, flags := 0, timeslice := 31, timeslice_max := 31, last_run := 0,
    cpu_affinity := 3, last_cpu := 1, preferred_cpu := 1 }

/-- A TimeCritical-class thread at level 7, bound to CPU 1 (not
migratable). -/
def exThreadB : Thread :=
  { tid := 2, sched_class := SCHED_CLASS_TIMECRIT, base_priority := 16, dynamic_priority := 7,
    state := THREAD_STATE_READY, flags := THREAD_FLAG_BOUND, timeslice := 31, timeslice_max := 31,
    last_run := 0, cpu_affinity := 2, last_cpu := 1, preferred_cpu := 1 }

/-- The thread running on CPU 0 in the load-balance scenario; its dynamic
priority is high enough that the enqueue of the migrated thread does not
take the preemption branch. -/
def exThreadC : Thread :=
  { tid := 3, sched_class := SCHED_CLASS_SERVER, base_priority := 16, dynamic_priority := 200,
    state := THREAD_STATE_RUNNING, flags := 0, timeslice := 31, timeslice_max := 31,
    last_run := 0, cpu_affinity := 1, last_cpu := 0, preferred_cpu := 0 }

/-- Run queue of CPU 1 holding exactly `exThreadA` (class 1, level 5):
the state `enqueue_thread` produces from an empty queue — count 1 at
(1, 5), `active_bitmap[1] = 1 << 26`, `class_bitmap = 1 << 1`,
`nr_running = 1`. -/
def exRqSingle : RunQueue :=
  { cpu_id := 1,
    queues := fun c p => if c = 1 ∧ p = 5 then [exThreadA] else [],
    counts := fun c p => if c = 1 ∧ p = 5 then 1 else 0,
    active_bitmap := fun c => if c = 1 then 2 ^ 26 else 0,
    class_bitmap := 2,
    nr_running := 1,
    current := none,
    idle := exIdle1 }

/-- Empty run queue of CPU 0 whose current thread is `exThreadC`. -/
def exRq0 : RunQueue :=
  { cpu_id := 0,
    queues := fun _ _ => [],
    counts := fun _ _ => 0,
    active_bitmap := fun _ => 0,
    class_bitmap := 0,
    nr_running := 0,
    current := some exThreadC,
    idle := exIdle0 }

/-- Run queue of CPU 1 holding `exThreadA` at (1, 5) and `exThreadB` at
(2, 7), with the bitmaps and counts the scheduler's own enqueue produces:
`nr_running = 2`, `active_bitmap[1] = 1 << 26`, `active_bitmap[2] = 1 << 24`,
`class_bitmap = 0b110`. -/
def exRqBusy : RunQueue :=
  { cpu_id := 1,
    queues := fun c p =>
      if c = 1 ∧ p = 5 then [exThreadA] else if c = 2 ∧ p = 7 then [exThreadB] else [],
    counts := fun c p =>
      if c = 1 ∧ p = 5 then 1 else if c = 2 ∧ p = 7 then 1 else 0,
    active_bitmap := fun c => if c = 1 then 2 ^ 26 else if c = 2 then 2 ^ 24 else 0,
    class_bitmap := 6,
    nr_running := 2,
    current := none,
    idle := exIdle1 }

/-- Two-CPU scheduler state: CPU 0 (the caller) idle-ish with load 0,
CPU 1 online and busy with two queued threads, both queues satisfying the
documented invariant. -/
def exSched : SchedState :=
  { runqueues := fun cpu => if cpu = 1 then exRqBusy else exRq0,
    cpu_count := 2,
    online_mask := 3,
    current_cpu := 0,
    time := 1000000000 }

/-! ## NUMA buddy allocator data model (kernel/mm/numa.c) -/

/-- Per-page metadata of `struct page` that the allocator reads:
`PAGE_FLAG_BUDDY` in the flags and the `order` field. -/
structure PageMeta where
  buddy : Bool
  order : Nat
deriving DecidableEq, Repr

/-- A `numa_mem_info_t`: per-order free lists (`free_list k` holds the
page-frame numbers of the block heads, most recently added first, since
`list_add` prepends), the `free_count` array, and the `free_pages`
counter. -/
structure NodeState where
  free_list : Nat → List Nat
  free_count : Nat → Nat
  free_pages : Nat

/-- The NUMA topology and page state the allocator operations touch:
`numa_topo.num_nodes`, the per-node state, the per-page metadata
(`page->flags`/`page->order`), the `page->numa_node` field as `pfnNode`,
the fallback matrix, and the `MAX_ORDER` constant (defined in a header
outside the repository files; kept as a parameter of the state). -/
structure MemState where
  numNodes : Nat
  maxOrder : Nat
  nodes : Nat → NodeState
  page : Nat → PageMeta
  pfnNode : Nat → Nat
  fallback : Nat → Nat → Nat

/-- Pop the head block of `free_list[k]` on node `nd`: the common body of
the fast path of `numa_alloc_pages` and of `numa_alloc_pages_strict` —
`list_del` the first entry, `free_count[k]--`, `free_pages -= 1 << k`.
The C reads the first entry after checking `free_count[k] > 0`; under the
run-time invariant the two agree, and a count/list mismatch yields
`none`. -/
def node_pop (s : MemState) (nd k : Nat) : Option (Nat × MemState) :=
  let n := s.nodes nd
  if 0 < n.free_count k then
    match n.free_list k with
    | [] => none
    | p :: rest =>
      let n1 := { n with
        free_list := Function.update n.free_list k rest,
        free_count := Function.update n.free_count k (n.free_count k - 1),
        free_pages := n.free_pages - 2 ^ k }
      some (p, { s with nodes := Function.update s.nodes nd n1 })
  else none

/-- The `numa_alloc_pages_strict` of numa.c: bounds-check the node, then
the fast-path pop at exactly the requested order, no splitting and no
fallback. -/
def numa_alloc_pages_strict (s : MemState) (node order : Nat) : Option (Nat × MemState) :=
  if s.numNodes ≤ node then none
  else node_pop s node order

/-- The split loop of `numa_alloc_pages` (`while (i > order)`): `cnt` is
`i - order`; each iteration decrements `i` and `list_add`s the upper half
`page + (1 << i)` onto `free_list[i]` (no flag or order is written to the
pushed buddy, exactly as in the source). -/
def split_push (Z : Nat) : Nat → Nat → NodeState → NodeState
  | 0, _, n => n
  | cnt + 1, i, n =>
    let i1 := i - 1
    let n1 := { n with
      free_list := Function.update n.free_list i1 ((Z + 2 ^ i1) :: n.free_list i1),
      free_count := Function.update n.free_count i1 (n.free_count i1 + 1) }
    split_push Z cnt i1 n1

/-- The higher-order scan of `numa_alloc_pages`
(`for (i = order + 1; i < MAX_ORDER; i++)`): at the first order with a
non-empty list, pop its head, run the split loop down to the requested
order, and charge `free_pages` by `1 << order`.  `fuel` is
`MAX_ORDER - i`. -/
def split_scan (s : MemState) (nd order : Nat) : Nat → Nat → Option (Nat × MemState)
  | 0, _ => none
  | fuel + 1, i =>
    let n := s.nodes nd
    if 0 < n.free_count i then
      match n.free_list i with
      | [] => none
      | Z :: rest =>
        let n1 := { n with
          free_list := Function.update n.free_list i rest,
          free_count := Function.update n.free_count i (n.free_count i - 1) }
        let n2 := split_push Z (i - order) i n1
        let n3 := { n2 with free_pages := n2.free_pages - 2 ^ order }
        some (Z, { s with nodes := Function.update s.nodes nd n3 })
    else split_scan s nd order fuel (i + 1)

/-- The fallback loop of `numa_alloc_pages`
(`for (i = 1; i < numa_topo.num_nodes; i++)`): strict allocation on each
node of the fallback row in turn.  `fuel` is `num_nodes - i`. -/
def fallback_scan (s : MemState) (node order : Nat) : Nat → Nat → Option (Nat × MemState)
  | 0, _ => none
  | fuel + 1, i =>
    match numa_alloc_pages_strict s (s.fallback node i) order with
    | some r => some r
    | none => fallback_scan s node order fuel (i + 1)

/-- The `numa_alloc_pages` of numa.c with NUMA enabled: fast path on the
requested node, then the split scan over higher orders on the same node,
then the distance-ordered fallback.  The returned `Nat` is the page-frame
number of the block (`page_to_virt` and `virt_to_page` are the identity on
frames in this model). -/
def numa_alloc_pages (s : MemState) (node order : Nat) : Option (Nat × MemState) :=
  match node_pop s node order with
  | some r => some r
  | none =>
    match split_scan s node order (s.maxOrder - (order + 1)) (order + 1) with
    | some r => some r
    | none => fallback_scan s node order (s.numNodes - 1) 1

/-- The buddy-merge loop of `numa_free_pages` (`while (order < MAX_ORDER - 1)`):
the buddy frame is `pfn ^ (1 << order)`; when its page is flagged
`PAGE_FLAG_BUDDY` at exactly this order, it is `list_del`ed from this
node's list of that order, `free_count[order]--`, its flag is cleared, and
merging continues at `order + 1` from the lower of the two frames.  `fuel`
is `MAX_ORDER - 1 - order`, mirroring the loop guard.  Returns the final
frame, order and state. -/
def merge_loop (nd : Nat) : Nat → Nat → Nat → MemState → Nat × Nat × MemState
  | 0, pfn, order, s => (pfn, order, s)
  | fuel + 1, pfn, order, s =>
    let bpfn := pfn ^^^ 2 ^ order
    let meta := s.page bpfn
    if meta.buddy ∧ meta.order = order then
      let n := s.nodes nd
      let n1 := { n with
        free_list := Function.update n.free_list order ((n.free_list order).erase bpfn),
        free_count := Function.update n.free_count order (n.free_count order - 1) }
      let s1 := { s with
        nodes := Function.update s.nodes nd n1,
        page := Function.update s.page bpfn { meta with buddy := false } }
      merge_loop nd fuel (if bpfn < pfn then bpfn else pfn) (order + 1) s1
    else (pfn, order, s)

/-- The `numa_free_pages` of numa.c: find the block's node from
`page->numa_node`, run the buddy-merge loop, then flag the final block,
record its order, `list_add` it onto the final order's list, bump that
count, and add `1 << order` — the final, merged order — to `free_pages`. -/
def numa_free_pages (s : MemState) (pfn order : Nat) : MemState :=
  match merge_loop (s.pfnNode pfn) (s.maxOrder - 1 - order) pfn order s with
  | (pfn1, order1, s1) =>
    let n := s1.nodes (s.pfnNode pfn)
    let n1 := { n with
      free_list := Function.update n.free_list order1 (pfn1 :: n.free_list order1),
      free_count := Function.update n.free_count order1 (n.free_count order1 + 1),
      free_pages := n.free_pages + 2 ^ order1 }
    { s1 with
      page := Function.update s1.page pfn1 { buddy := true, order := order1 },
      nodes := Function.update s1.nodes (s.pfnNode pfn) n1 }

/-- Sum of `free_count[k] * 2^k` over the orders below `maxOrder`. -/
def free_list_pages (n : NodeState) (maxOrder : Nat) : Nat :=
  ((List.range maxOrder).map fun k => n.free_count k * 2 ^ k).sum

/-- Decidable check of the documented per-node accounting invariant:
`free_pages` equals the sum over all orders of `free_count[k] * 2^k`. -/
def mem_acct_ok (s : MemState) : Bool :=
  (List.range s.numNodes).all fun nd =>
    (s.nodes nd).free_pages == free_list_pages (s.nodes nd) s.maxOrder

/-- Concrete allocator state for evaluating `numa_free_pages`: one node,
`MAX_ORDER = 3`; frame 0 is a free order-0 block (flagged, on the list),
its buddy frame 1 is in use; `free_pages = 1`. -/
def exMemMerge : MemState :=
  { numNodes := 1,
    maxOrder := 3,
    nodes := fun _ =>
      { free_list := fun k => if k = 0 then [0] else [],
        free_count := fun k => if k = 0 then 1 else 0,
        free_pages := 1 },
    page := fun p => if p = 0 then { buddy := true, order := 0 } else { buddy := false, order := 0 },
    pfnNode := fun _ => 0,
    fallback := fun _ _ => 0 }

/-! ## Fallback order construction (numa.c, numa_build_fallback_order)

The row for node i starts as the identity permutation `0, …, n-1` and is
bubble-sorted in place by `distance[i][·]`, swapping adjacent entries only
on a strictly greater distance. -/

/-- One inner pass of the bubble sort
(`for (k = 0; k < n - j - 1; k++)`): `cnt` comparisons of adjacent
entries, swapping when the first's distance is strictly greater. -/
def bubbleStep (d : Nat → Nat) : Nat → List Nat → List Nat
  | 0, l => l
  | _ + 1, [] => []
  | _ + 1, [a] => [a]
  | cnt + 1, a :: b :: t =>
    if d a > d b then b :: bubbleStep d cnt (a :: t)
    else a :: bubbleStep d cnt (b :: t)

/-- The outer passes (`for (j = 0; j < n - 1; j++)`): pass j performs
`n - j - 1` comparisons, so the passes run with fuel `n-1, n-2, …, 1`. -/
def bubbleSortAux (d : Nat → Nat) : Nat → List Nat → List Nat
  | 0, l => l
  | m + 1, l => bubbleSortAux d m (bubbleStep d (m + 1) l)

/-- Row i of the fallback matrix as `numa_build_fallback_order` builds it
from the distance matrix for `n` nodes. -/
def numa_build_fallback_row (distance : Nat → Nat → Nat) (n i : Nat) : List Nat :=
  bubbleSortAux (distance i) (n - 1) (List.range n)

/-! ## The documented allocator invariant

Spec §3/§8 for every NUMA node: `free_pages` equals the sum of
`free_count[k] * 2^k`; a page is flagged `PAGE_FLAG_BUDDY` with a given
order exactly when it heads a block on its node's free list of that order;
free blocks never overlap and no two same-order free blocks are buddies;
block heads are aligned to their order.  The per-node C arrays have
`MAX_ORDER` entries and `num_nodes` initialized nodes, so list membership
also bounds the order and the node. -/

/-- The documented well-formedness invariant of the allocator state. -/
def MemInv (s : MemState) : Prop :=
  (∀ nd k, (s.nodes nd).free_count k = ((s.nodes nd).free_list k).length) ∧
  (∀ nd, nd < s.numNodes →
    (s.nodes nd).free_pages = free_list_pages (s.nodes nd) s.maxOrder) ∧
  (∀ nd k p, p ∈ (s.nodes nd).free_list k →
    (s.page p).buddy = true ∧ (s.page p).order = k ∧ s.pfnNode p = nd ∧
    nd < s.numNodes ∧ k < s.maxOrder ∧ p % 2 ^ k = 0) ∧
  (∀ p, (s.page p).buddy = true →
    p ∈ (s.nodes (s.pfnNode p)).free_list ((s.page p).order)) ∧
  (∀ nd1 nd2 k p q, p ∈ (s.nodes nd1).free_list k → q ∈ (s.nodes nd2).free_list k →
    q ≠ p ^^^ 2 ^ k) ∧
  (∀ nd1 nd2 k1 k2 p q, p ∈ (s.nodes nd1).free_list k1 → q ∈ (s.nodes nd2).free_list k2 →
    p < q → q < p + 2 ^ k1 → False)

/-- What a successful allocation guarantees, shared by the fast path, the
split path and the strict fallback path: page metadata, node fields and
`MAX_ORDER` untouched; some block head X was taken from some node's free
list at an order at least the requested one, and that node — the node of
X — had its `free_pages` charged by exactly `2^order` (without
underflow). -/
def AllocPost (s0 s1 : MemState) (X order : Nat) : Prop :=
  s1.page = s0.page ∧ s1.pfnNode = s0.pfnNode ∧ s1.maxOrder = s0.maxOrder ∧
  ∃ m i, order ≤ i ∧ X ∈ (s0.nodes m).free_list i ∧ s0.pfnNode X = m ∧
    (s1.nodes m).free_pages = (s0.nodes m).free_pages - 2 ^ order ∧
    2 ^ order ≤ (s0.nodes m).free_pages

/-- Concrete allocator state for exercising the round-trip: one node,
`MAX_ORDER = 1`, frame 4 free at order 0 and flagged, `free_pages = 1`. -/
def exMemRound : MemState :=
  { numNodes := 1,
    maxOrder := 1,
    nodes := fun nd =>
      if nd = 0 then
        { free_list := fun k => if k = 0 then [4] else [],
          free_count := fun k => if k = 0 then 1 else 0,
          free_pages := 1 }
      else { free_list := fun _ => [], free_count := fun _ => 0, free_pages := 0 },
    page := fun p => if p = 4 then { buddy := true, order := 0 } else { buddy := false, order := 0 },
    pfnNode := fun _ => 0,
    fallback := fun _ _ => 0 }

/-- The state after a successful order-0 allocation from `exMemRound`
(defined through the allocator itself, so the round-trip witness can name
it). -/
def exMemRound1 : MemState :=
  match numa_alloc_pages exMemRound 0 0 with
  | some r => r.2
  | none => exMemRound

/-- Concrete `smp_info` with two online CPUs. -/
def exSmp : SmpInfo := { cpu_count := 2, apic_id := fun c => c }

/-- Concrete critical-section state with no enclosing `DosEnterCritSec`. -/
def exCrit : CritState :=
  { critsec_count := 0, critsec_lock := 0, preempt_counter := 0,
    need_resched := true, sched_invoked := false }

/-!
# Theorems

One theorem per claim of the specification, with the supporting lemmas
before each. -/

/-- Claim C1 (code_bug evaluation): on a run queue holding exactly one
runnable thread — class Regular, level 5, with counts and bitmaps exactly
as `enqueue_thread` builds them, satisfying the documented invariant —
`pick_next_thread` returns the idle thread even though `nr_running = 1`.
The inner scan of `pick_next_thread` tests bit `31 - p` of
`active_bitmap[c]` but reads `queues[c][31 - p]`, while `enqueue_thread`
records level l in bit `31 - l`, so for a single occupied level the
tested bit and the queue read never line up and the scan falls through to
the idle thread.  The claim states the head of the highest non-empty FIFO
is returned and never the idle thread. -/
theorem pick_next_thread_returns_idle_on_runnable :
    rq_invariant_ok exRqSingle = true ∧ exRqSingle.nr_running = 1 ∧
    pick_next_thread exRqSingle = exRqSingle.idle :=
  ⟨rfl, rfl, rfl⟩

/-- Claim C2 (code_bug evaluation): a two-CPU state in which both run
queues satisfy the documented counting/bitmap invariant, yet after one
`trigger_load_balance` from the idle CPU the busiest queue violates it:
the migration step clears the emptied level's `active_bitmap` bit but
never clears the `class_bitmap` bit (unlike `dequeue_thread`), leaving
class 1 marked while `active_bitmap[1] = 0`. -/
theorem trigger_load_balance_breaks_invariant :
    rq_invariant_ok (exSched.runqueues 0) = true ∧
    rq_invariant_ok (exSched.runqueues 1) = true ∧
    rq_invariant_ok ((trigger_load_balance exSched).runqueues 1) = false ∧
    ((trigger_load_balance exSched).runqueues 1).class_bitmap.testBit 1 = true ∧
    ((trigger_load_balance exSched).runqueues 1).active_bitmap 1 = 0 :=
  ⟨rfl, rfl, rfl, rfl, rfl⟩

/-- Claim C3 (code_bug evaluation): a node satisfying the documented
accounting invariant (`free_pages = Σ free_count[k]·2^k`, here one free
order-0 block, `free_pages = 1`); freeing the buddy frame merges once, and
`numa_free_pages` then adds `1 << order` at the merged order 1 instead of
the freed order 0, leaving `free_pages = 3` against 2 pages on the free
lists — the invariant no longer holds. -/
theorem numa_free_pages_breaks_accounting :
    mem_acct_ok exMemMerge = true ∧
    mem_acct_ok (numa_free_pages exMemMerge 1 0) = false ∧
    ((numa_free_pages exMemMerge 1 0).nodes 0).free_pages = 3 ∧
    free_list_pages ((numa_free_pages exMemMerge 1 0).nodes 0) 3 = 2 :=
  ⟨rfl, rfl, rfl, rfl⟩

/-- Claim C6 (code_bug evaluation): for external class 2 (Regular) and
delta -31 the claim's mapping gives internal priority
`1·32 + clamp((-31+31)/2, 0, 31) = 32`, but `os2_to_internal_priority` —
whose `uint8_t prtylevel` parameter receives the signed delta reduced mod
256, here 225 — computes level `(225+31)/2 = 128`, clamps it to 31, and
returns 63.  Every negative delta is collapsed to level 31, contradicting
the function's own comment that -31..+31 maps to 0..31. -/
theorem os2_to_internal_priority_negative_delta :
    os2_to_internal_priority 2 (uint8_of_int (-31)) = 63 ∧
    spec_internal_priority 2 (-31) = 32 :=
  ⟨rfl, rfl⟩

/-- Claim C7: `DosExitCritSec` called with a zero critical-section count
returns the underflow status before touching anything, so the
critical-section count and the per-CPU preemption counter (and the rest of
the state) are unchanged. -/
theorem DosExitCritSec_underflow (s : CritState) (h : s.critsec_count = 0) :
    DosExitCritSec s = (APIStatus.critsec_underflow, s) := by
  simp [DosExitCritSec, h]

/-- Witness for claim C7 at a concrete state. -/
theorem DosExitCritSec_underflow_witness :
    DosExitCritSec exCrit = (APIStatus.critsec_underflow, exCrit) :=
  DosExitCritSec_underflow exCrit rfl

/-- Claim C10: `smp_send_ipi` with a CPU index at or beyond the online
count, or with an IPI kind other than the four routed ones
(reschedule, TLB-flush, call-function, stop), sends no interrupt and is a
silent no-op (the function mutates no state; its only effect is the
`lapic_send_ipi` call modelled by the return value). -/
theorem smp_send_ipi_silent_noop (s : SmpInfo) (cpu_id ipi_type : Nat)
    (h : s.cpu_count ≤ cpu_id ∨
      (ipi_type ≠ IPI_RESCHEDULE ∧ ipi_type ≠ IPI_TLB_FLUSH ∧
       ipi_type ≠ IPI_CALL_FUNC ∧ ipi_type ≠ IPI_STOP)) :
    smp_send_ipi s cpu_id ipi_type = none := by
  rcases h with h | ⟨h1, h2, h3, h4⟩
  · simp [smp_send_ipi, Nat.le_iff_lt_or_eq, ge_iff_le, h]
  · simp only [smp_send_ipi, h1, h2, h3, h4, if_false]
    split <;> rfl

/-- Witness for claim C10: an out-of-range CPU and an unknown IPI kind. -/
theorem smp_send_ipi_silent_noop_witness :
    smp_send_ipi exSmp 5 IPI_RESCHEDULE = none ∧ smp_send_ipi exSmp 0 7 = none :=
  ⟨smp_send_ipi_silent_noop exSmp 5 IPI_RESCHEDULE (Or.inl (by decide)),
   smp_send_ipi_silent_noop exSmp 0 7 (Or.inr (by decide))⟩

/-- Extracting the head half of a packed lock word. -/
lemma lock_head_pack (head tail : Nat) (hh : head < 2 ^ 16) :
    lock_head (head + 2 ^ 16 * tail) = head := by
  have : (0xFFFF : Nat) = 2 ^ 16 - 1 := by norm_num
  rw [lock_head, this, Nat.and_pow_two_sub_one_eq_mod, Nat.add_mul_mod_self_left,
    Nat.mod_eq_of_lt hh]

/-- Extracting the tail half of a packed lock word. -/
lemma lock_tail_pack (head tail : Nat) (hh : head < 2 ^ 16) :
    lock_tail (head + 2 ^ 16 * tail) = tail := by
  rw [lock_tail, Nat.shiftRight_eq_div_pow, Nat.add_mul_div_left _ _ (by positivity),
    Nat.div_eq_of_lt hh, Nat.zero_add]

/-- Claim C9: on any 32-bit ticket-lock word (head in the low half, tail
in the high half), `spin_trylock` returns 1 exactly when the lock is free
(head = tail); on success the head is unchanged, the tail is incremented
by one (mod 2^16), and `spin_is_locked` then reports the lock held; on
failure the word is unchanged.  The function is straight-line code — it
never waits. -/
theorem spin_trylock_spec (head tail : Nat) (hh : head < 2 ^ 16) (ht : tail < 2 ^ 16) :
    ((spin_trylock (head + 2 ^ 16 * tail)).1 = 1 ↔ head = tail) ∧
    ((spin_trylock (head + 2 ^ 16 * tail)).1 = 0 →
      (spin_trylock (head + 2 ^ 16 * tail)).2 = head + 2 ^ 16 * tail) ∧
    ((spin_trylock (head + 2 ^ 16 * tail)).1 = 1 →
      lock_head (spin_trylock (head + 2 ^ 16 * tail)).2 = head ∧
      lock_tail (spin_trylock (head + 2 ^ 16 * tail)).2 = (tail + 1) % 2 ^ 16 ∧
      spin_is_locked (spin_trylock (head + 2 ^ 16 * tail)).2 = true) := by
  have hsh : (head + 2 ^ 16 * tail) >>> 16 = tail := lock_tail_pack head tail hh
  have hlo : (head + 2 ^ 16 * tail) &&& 0xFFFF = head := by
    have h := lock_head_pack head tail hh
    simpa [lock_head] using h
  by_cases hfree : head = tail
  · subst hfree
    have hresult : spin_trylock (head + 2 ^ 16 * head) =
        (1, (head + 2 ^ 16 * head + 0x10000) % 2 ^ 32) := by
      rw [spin_trylock, hsh, hlo, if_neg (by simp)]
    have hpack : (head + 2 ^ 16 * head + 0x10000) % 2 ^ 32 =
        head + 2 ^ 16 * ((head + 1) % 2 ^ 16) := by
      by_cases hwrap : head + 1 < 2 ^ 16
      · rw [Nat.mod_eq_of_lt hwrap, Nat.mod_eq_of_lt (by nlinarith)]
        ring
      · have h1 : head = 2 ^ 16 - 1 := by omega
        subst h1
        decide
    have hne : (head + 1) % 2 ^ 16 ≠ head := by
      by_cases hwrap : head + 1 < 2 ^ 16
      · rw [Nat.mod_eq_of_lt hwrap]; omega
      · have h1 : head = 2 ^ 16 - 1 := by omega
        subst h1; decide
    refine ⟨by rw [hresult]; simp, by rw [hresult]; intro h; simp at h, fun _ => ?_⟩
    rw [hresult]
    have hhd := lock_head_pack head ((head + 1) % 2 ^ 16) hh
    have htl := lock_tail_pack head ((head + 1) % 2 ^ 16) hh
    refine ⟨by rw [hpack, hhd], by rw [hpack, htl], ?_⟩
    have hhd2 : (head + 2 ^ 16 * ((head + 1) % 2 ^ 16)) &&& 0xFFFF = head := by
      simpa [lock_head] using hhd
    have htl2 : (head + 2 ^ 16 * ((head + 1) % 2 ^ 16)) >>> 16 = (head + 1) % 2 ^ 16 := by
      simpa [lock_tail] using htl
    simp only [spin_is_locked, hpack, hhd2, htl2]
    simpa using hne
  · have hresult : spin_trylock (head + 2 ^ 16 * tail) = (0, head + 2 ^ 16 * tail) := by
      rw [spin_trylock, hsh, hlo, if_pos (fun h => hfree h.symm)]
    refine ⟨?_, by rw [hresult]; exact fun _ => rfl, ?_⟩
    · rw [hresult]
      simpa using hfree
    · rw [hresult]
      intro h
      exact absurd h (by simp)

/-- Witness for claim C9 at the free lock word 0. -/
theorem spin_trylock_spec_witness :
    ((spin_trylock (0 + 2 ^ 16 * 0)).1 = 1 ↔ (0 : Nat) = 0) ∧
    ((spin_trylock (0 + 2 ^ 16 * 0)).1 = 0 →
      (spin_trylock (0 + 2 ^ 16 * 0)).2 = 0 + 2 ^ 16 * 0) ∧
    ((spin_trylock (0 + 2 ^ 16 * 0)).1 = 1 →
      lock_head (spin_trylock (0 + 2 ^ 16 * 0)).2 = 0 ∧
      lock_tail (spin_trylock (0 + 2 ^ 16 * 0)).2 = (0 + 1) % 2 ^ 16 ∧
      spin_is_locked (spin_trylock (0 + 2 ^ 16 * 0)).2 = true) :=
  spin_trylock_spec 0 0 (by decide) (by decide)

/-- Claim C5 counterexample: a thread affine to CPUs 1 and 2
(mask 0b110) with preferred CPU 0 and `cpu_count = 3`, while the online
mask is 0b101 (CPU 1 is offline).  The claim says the lowest bit of
`affinity & online_mask` — CPU 2 — is selected; `enqueue_thread` actually
selects CPU 1, the first affinity bit below `cpu_count`, never reading the
online mask. -/
theorem enqueue_select_cpu_ignores_online_mask :
    enqueue_select_cpu 6 0 3 = 1 ∧ enqueue_select_cpu_spec 6 0 5 = 2 ∧
    Nat.testBit 5 1 = false :=
  ⟨rfl, rfl, rfl⟩

/-- A successful `find?` over `List.range n` yields the least index
satisfying the predicate. -/
lemma find_range_least (p : Nat → Bool) :
    ∀ n x, (List.range n).find? p = some x →
      x < n ∧ p x = true ∧ ∀ j, j < x → p j = false := by
  intro n
  induction n with
  | zero => intro x hx; simp at hx
  | succ m ih =>
    intro x hx
    rw [List.range_succ, List.find?_append] at hx
    rcases hfind : (List.range m).find? p with _ | y
    · rw [hfind] at hx
      simp only [Option.none_or] at hx
      have hx2 : p x = true ∧ x = m := by
        rcases List.find?_some hx with hp
        rcases List.mem_of_find?_eq_some hx with hm
        simp at hm
        exact ⟨hp, hm⟩
      refine ⟨by omega, hx2.1, fun j hj => ?_⟩
      have hj2 : j ∈ List.range m := List.mem_range.mpr (by omega)
      have := List.find?_eq_none.mp hfind j hj2
      simpa using this
    · rw [hfind] at hx
      obtain rfl : x = y := by simpa using hx.symm
      obtain ⟨h1, h2, h3⟩ := ih x hfind
      exact ⟨by omega, h2, h3⟩

/-- Claim C5 as amended: `enqueue_thread` targets `preferred_cpu` whenever
its bit is set in the affinity mask; otherwise it targets the
lowest-numbered CPU index below `cpu_count` whose affinity bit is set,
regardless of the online mask — and the selection is `cpu_count` itself
when no index below it has its affinity bit set. -/
theorem enqueue_select_cpu_amended (affinity preferred n : Nat) :
    (affinity.testBit preferred = true → enqueue_select_cpu affinity preferred n = preferred) ∧
    (affinity.testBit preferred = false →
      (∀ c, c < n → affinity.testBit c = true →
        enqueue_select_cpu affinity preferred n < n ∧
        affinity.testBit (enqueue_select_cpu affinity preferred n) = true ∧
        ∀ j, j < enqueue_select_cpu affinity preferred n → affinity.testBit j = false) ∧
      ((∀ c, c < n → affinity.testBit c = false) →
        enqueue_select_cpu affinity preferred n = n)) := by
  constructor
  · intro h
    simp [enqueue_select_cpu, h]
  · intro h
    constructor
    · intro c hc hbit
      rcases hfind : (List.range n).find? (fun c => affinity.testBit c) with _ | x
      · exfalso
        have := List.find?_eq_none.mp hfind c (List.mem_range.mpr hc)
        simp [hbit] at this
      · have hsel : enqueue_select_cpu affinity preferred n = x := by
          simp [enqueue_select_cpu, h, hfind]
        rw [hsel]
        exact find_range_least _ n x hfind
    · intro hall
      have hnone : (List.range n).find? (fun c => affinity.testBit c) = none := by
        rw [List.find?_eq_none]
        intro x hx
        simp [hall x (List.mem_range.mp hx)]
      simp [enqueue_select_cpu, h, hnone]

/-- Witness for claim C5: the preferred branch at affinity 0b1000,
preferred 3, and the scan branch at affinity 0b110, preferred 0,
`cpu_count = 3` (CPU 1 is selected, the least affinity bit below 3). -/
theorem enqueue_select_cpu_amended_witness :
    enqueue_select_cpu 8 3 4 = 3 ∧
    enqueue_select_cpu 6 0 3 < 3 ∧
    Nat.testBit 6 (enqueue_select_cpu 6 0 3) = true :=
  ⟨(enqueue_select_cpu_amended 8 3 4).1 (by decide),
   ((enqueue_select_cpu_amended 6 0 3).2 (by decide) |>.1 1 (by decide) (by decide)).1,
   ((enqueue_select_cpu_amended 6 0 3).2 (by decide) |>.1 1 (by decide) (by decide)).2.1⟩

/-- A bubble pass permutes its input. -/
lemma bubbleStep_perm (d : Nat → Nat) : ∀ m l, (bubbleStep d m l).Perm l := by
  intro m
  induction m with
  | zero => intro l; exact List.Perm.refl l
  | succ k ih =>
    intro l
    match l with
    | [] => exact List.Perm.refl []
    | [a] => exact List.Perm.refl [a]
    | a :: b :: t =>
      simp only [bubbleStep]
      split
      · exact ((ih (a :: t)).cons b).trans (List.Perm.swap a b t)
      · exact (ih (b :: t)).cons a

/-- The whole bubble sort permutes its input. -/
lemma bubbleSortAux_perm (d : Nat → Nat) : ∀ m l, (bubbleSortAux d m l).Perm l := by
  intro m
  induction m with
  | zero => intro l; exact List.Perm.refl l
  | succ k ih =>
    intro l
    exact (ih (bubbleStep d (k + 1) l)).trans (bubbleStep_perm d (k + 1) l)

/-- A pass whose fuel runs out exactly at the end of the first chunk never
touches the second chunk. -/
lemma bubbleStep_append (d : Nat → Nat) :
    ∀ cnt l1 l2, l1.length = cnt + 1 →
      bubbleStep d cnt (l1 ++ l2) = bubbleStep d cnt l1 ++ l2 := by
  intro cnt
  induction cnt with
  | zero => intro l1 l2 h; rfl
  | succ k ih =>
    intro l1 l2 h
    match l1 with
    | [] => simp at h
    | [a] => simp at h
    | a :: b :: t =>
      have ht : (a :: t).length = k + 1 := by simp at h ⊢; omega
      have ht2 : (b :: t).length = k + 1 := by simp at h ⊢; omega
      simp only [List.cons_append, bubbleStep]
      split
      · exact congrArg (List.cons b) (ih (a :: t) l2 ht)
      · exact congrArg (List.cons a) (ih (b :: t) l2 ht2)

/-- A full pass (fuel = length − 1) moves an element that is maximal for
the sort key to the end of the list. -/
lemma bubbleStep_max (d : Nat → Nat) :
    ∀ t a, ∃ l2 x, bubbleStep d t.length (a :: t) = l2 ++ [x] ∧
      ∀ y ∈ a :: t, d y ≤ d x := by
  intro t
  induction t with
  | nil =>
    intro a
    exact ⟨[], a, rfl, by simp⟩
  | cons b t1 ih =>
    intro a
    simp only [List.length_cons, bubbleStep]
    by_cases hgt : d a > d b
    · rw [if_pos hgt]
      obtain ⟨l2, x, heq, hb⟩ := ih a
      refine ⟨b :: l2, x, by rw [heq, List.cons_append], ?_⟩
      intro y hy
      rcases List.mem_cons.mp hy with rfl | hy2
      · exact hb y (by simp)
      · rcases List.mem_cons.mp hy2 with rfl | hy3
        · exact le_trans (le_of_lt hgt) (hb a (by simp))
        · exact hb y (by simp [hy3])
    · rw [if_neg hgt]
      obtain ⟨l2, x, heq, hb⟩ := ih b
      refine ⟨a :: l2, x, by rw [heq, List.cons_append], ?_⟩
      intro y hy
      rcases List.mem_cons.mp hy with rfl | hy2
      · exact le_trans (le_of_not_lt hgt) (hb b (by simp))
      · exact hb y hy2

/-- The remaining passes of the bubble sort never touch an already placed
suffix: with fuel matching the first chunk, sorting distributes over the
append. -/
lemma bubbleSortAux_append (d : Nat → Nat) :
    ∀ m l1 l2, l1.length = m + 1 →
      bubbleSortAux d m (l1 ++ l2) = bubbleSortAux d m l1 ++ l2 := by
  intro m
  induction m with
  | zero => intro l1 l2 h; rfl
  | succ k ih =>
    intro l1 l2 h
    match l1 with
    | [] => simp at h
    | a :: t =>
      have ht : t.length = k + 1 := by simp at h; omega
      simp only [bubbleSortAux]
      rw [bubbleStep_append d (k + 1) (a :: t) l2 (by simpa using ht)]
      obtain ⟨l3, x, heq, _⟩ := bubbleStep_max d t a
      rw [ht] at heq
      rw [heq]
      have hl3 : l3.length = k + 1 := by
        have hlen := (bubbleStep_perm d t.length (a :: t)).length_eq
        rw [ht] at hlen
        rw [heq] at hlen
        simp at hlen
        omega
      rw [List.append_assoc, ih l3 ([x] ++ l2) hl3, ih l3 [x] hl3, List.append_assoc]

/-- With fuel at least length − 1, the bubble sort leaves a list that is
sorted by the distance key. -/
lemma bubbleSortAux_sorted (d : Nat → Nat) :
    ∀ m l, l.length ≤ m + 1 →
      List.Pairwise (fun a b => d a ≤ d b) (bubbleSortAux d m l) := by
  intro m
  induction m with
  | zero =>
    intro l h
    match l with
    | [] => exact List.Pairwise.nil
    | [a] => exact List.pairwise_singleton _ a
    | a :: b :: t => simp at h
  | succ k ih =>
    intro l h
    by_cases hl : l.length ≤ k + 1
    · have hstep := (bubbleStep_perm d (k + 1) l).length_eq
      exact ih (bubbleStep d (k + 1) l) (by omega)
    · have hlen : l.length = k + 2 := by omega
      match l, hlen with
      | a :: t, hlen =>
        have ht : t.length = k + 1 := by simp at hlen; omega
        simp only [bubbleSortAux]
        obtain ⟨l2, x, heq, hb⟩ := bubbleStep_max d t a
        rw [ht] at heq
        rw [heq]
        have hperm : (l2 ++ [x]).Perm (a :: t) := by
          rw [← heq]
          exact bubbleStep_perm d (k + 1) (a :: t)
        have hl2 : l2.length = k + 1 := by
          have := hperm.length_eq
          simp at this
          omega
        rw [bubbleSortAux_append d k l2 [x] hl2]
        rw [List.pairwise_append]
        refine ⟨ih l2 (by omega), by simp, ?_⟩
        intro u hu v hv
        rcases List.mem_singleton.mp hv with rfl
        have hu2 : u ∈ l2 := (bubbleSortAux_perm d k l2).mem_iff.mp hu
        have hu3 : u ∈ a :: t := hperm.mem_iff.mp (by simp [hu2])
        exact hb u hu3

/-- A bubble pass preserves any pairwise relation that holds automatically
across a swap (the swap only fires on a strictly greater key). -/
lemma bubbleStep_pairwise (d : Nat → Nat) (Q : Nat → Nat → Prop)
    (hswap : ∀ a b, d a > d b → Q b a) :
    ∀ m l, l.Pairwise Q → (bubbleStep d m l).Pairwise Q := by
  intro m
  induction m with
  | zero => intro l hp; exact hp
  | succ k ih =>
    intro l hp
    match l with
    | [] => exact hp
    | [a] => exact hp
    | a :: b :: t =>
      obtain ⟨ha, hbt⟩ := List.pairwise_cons.mp hp
      obtain ⟨hbrel, ht⟩ := List.pairwise_cons.mp hbt
      simp only [bubbleStep]
      by_cases hgt : d a > d b
      · rw [if_pos hgt, List.pairwise_cons]
        refine ⟨?_, ih (a :: t) ?_⟩
        · intro y hy
          have hy2 : y ∈ a :: t := (bubbleStep_perm d k (a :: t)).mem_iff.mp hy
          rcases List.mem_cons.mp hy2 with rfl | hy3
          · exact hswap y b hgt
          · exact hbrel y hy3
        · rw [List.pairwise_cons]
          exact ⟨fun y hy => ha y (by simp [hy]), ht⟩
      · rw [if_neg hgt, List.pairwise_cons]
        refine ⟨?_, ih (b :: t) hbt⟩
        intro y hy
        have hy2 : y ∈ b :: t := (bubbleStep_perm d k (b :: t)).mem_iff.mp hy
        exact ha y (by simpa using hy2)

/-- The whole bubble sort preserves a swap-stable pairwise relation. -/
lemma bubbleSortAux_pairwise (d : Nat → Nat) (Q : Nat → Nat → Prop)
    (hswap : ∀ a b, d a > d b → Q b a) :
    ∀ m l, l.Pairwise Q → (bubbleSortAux d m l).Pairwise Q := by
  intro m
  induction m with
  | zero => intro l hp; exact hp
  | succ k ih =>
    intro l hp
    exact ih (bubbleStep d (k + 1) l) (bubbleStep_pairwise d Q hswap (k + 1) l hp)

/-- Claim C8: for every distance matrix and node i, the fallback row built
by `numa_build_fallback_order` is a permutation of all node indices that
is pairwise ordered by strictly ascending distance with equal distances
ordered by ascending node index — i.e. the stable ascending sort of the
identity permutation by `distance[i][·]`, which is unique, so the
construction is deterministic. -/
theorem numa_build_fallback_row_stable_sort (distance : Nat → Nat → Nat) (n i : Nat) :
    (numa_build_fallback_row distance n i).Perm (List.range n) ∧
    List.Pairwise
      (fun a b => distance i a < distance i b ∨ (distance i a = distance i b ∧ a < b))
      (numa_build_fallback_row distance n i) := by
  have hlen : (List.range n).length ≤ (n - 1) + 1 := by
    rw [List.length_range]; omega
  have hsorted := bubbleSortAux_sorted (distance i) (n - 1) (List.range n) hlen
  have hswap : ∀ a b, distance i a > distance i b →
      (distance i b = distance i a → b < a) := by
    intro a b hab heq
    omega
  have hinit : (List.range n).Pairwise (fun a b => distance i a = distance i b → a < b) := by
    refine (List.pairwise_lt_range n).imp ?_
    intro a b hab _
    exact hab
  have hstable := bubbleSortAux_pairwise (distance i)
    (fun a b => distance i a = distance i b → a < b) hswap (n - 1) (List.range n) hinit
  refine ⟨bubbleSortAux_perm (distance i) (n - 1) (List.range n), ?_⟩
  refine (hsorted.and hstable).imp ?_
  intro a b hab
  rcases Nat.lt_or_eq_of_le hab.1 with hlt | heq
  · exact Or.inl hlt
  · exact Or.inr ⟨heq, hab.2 heq⟩

/-- One order's contribution is bounded by the whole free-list page sum. -/
lemma term_le_free_list_pages (n : NodeState) (mo k : Nat) (hk : k < mo) :
    n.free_count k * 2 ^ k ≤ free_list_pages n mo := by
  unfold free_list_pages
  exact List.single_le_sum (fun x _ => Nat.zero_le x) _
    (List.mem_map.mpr ⟨k, List.mem_range.mpr hk, rfl⟩)

/-- XOR with `1 << k` on a frame aligned past bit k is plain addition of
`2^k` (the block's upper half lies above the head). -/
lemma xor_two_pow_of_align (X k : Nat) (h : X % 2 ^ (k + 1) = 0) :
    X ^^^ 2 ^ k = X + 2 ^ k := by
  obtain ⟨c, hc⟩ := Nat.dvd_of_mod_eq_zero h
  have hbit : X.testBit k = false := by
    have h1 : (X % 2 ^ (k + 1)).testBit k = X.testBit k := by
      rw [Nat.testBit_mod_two_pow]
      simp [Nat.lt_succ_self]
    rw [h, Nat.zero_testBit] at h1
    exact h1.symm
  have hor : X ^^^ 2 ^ k = X ||| 2 ^ k := by
    apply Nat.eq_of_testBit_eq
    intro i
    rw [Nat.testBit_xor, Nat.testBit_or]
    by_cases hik : i = k
    · subst hik
      rw [hbit, Nat.testBit_two_pow_self]
      rfl
    · rw [Nat.testBit_two_pow_of_ne (fun hkk => hik hkk.symm)]
      simp
  rw [hor, hc, ← Nat.mul_add_lt_is_or (Nat.pow_lt_pow_right (by norm_num) (Nat.lt_succ_self k)) c]

/-- Unpacking a successful fast-path or strict pop. -/
lemma node_pop_post {s : MemState} {nd k X : Nat} {s1 : MemState}
    (hinv : MemInv s) (h : node_pop s nd k = some (X, s1)) : AllocPost s s1 X k := by
  obtain ⟨ha, hb, hc1, hc2, hd, he⟩ := hinv
  unfold node_pop at h
  by_cases hc : 0 < (s.nodes nd).free_count k
  swap
  · rw [if_neg hc] at h; exact absurd h (by simp)
  rw [if_pos hc] at h
  rcases hl : (s.nodes nd).free_list k with _ | ⟨p, rest⟩
  · rw [hl] at h; exact absurd h (by simp)
  rw [hl] at h
  injection h with hpair
  injection hpair with h1 h2
  subst h1
  subst h2
  have hmem : p ∈ (s.nodes nd).free_list k := by rw [hl]; exact List.mem_cons_self p rest
  obtain ⟨hbud, hord, hpf, hndlt, hklt, halign⟩ := hc1 nd k p hmem
  refine ⟨rfl, rfl, rfl, nd, k, le_refl k, hmem, hpf, ?_, ?_⟩
  · simp [Function.update_same]
  · calc 2 ^ k = 1 * 2 ^ k := (Nat.one_mul _).symm
    _ ≤ (s.nodes nd).free_count k * 2 ^ k :=
        Nat.mul_le_mul_right _ (by omega)
    _ ≤ free_list_pages (s.nodes nd) s.maxOrder := term_le_free_list_pages _ _ _ hklt
    _ = (s.nodes nd).free_pages := (hb nd hndlt).symm

/-- The split loop never touches `free_pages`. -/
lemma split_push_free_pages (Z : Nat) :
    ∀ cnt i n, (split_push Z cnt i n).free_pages = n.free_pages := by
  intro cnt
  induction cnt with
  | zero => intro i n; rfl
  | succ c ih => intro i n; rw [split_push, ih]

/-- Unpacking a successful split-path allocation. -/
lemma split_scan_post {s : MemState} {nd order X : Nat} {s1 : MemState}
    (hinv : MemInv s) :
    ∀ fuel i, order < i → split_scan s nd order fuel i = some (X, s1) →
      AllocPost s s1 X order := by
  obtain ⟨ha, hb, hc1, hc2, hd, he⟩ := hinv
  intro fuel
  induction fuel with
  | zero => intro i hoi h; exact absurd h (by simp [split_scan])
  | succ f ih =>
    intro i hoi h
    rw [split_scan] at h
    by_cases hc : 0 < (s.nodes nd).free_count i
    swap
    · rw [if_neg hc] at h
      exact ih (i + 1) (by omega) h
    rw [if_pos hc] at h
    rcases hl : (s.nodes nd).free_list i with _ | ⟨Z, rest⟩
    · rw [hl] at h; exact absurd h (by simp)
    rw [hl] at h
    injection h with hpair
    injection hpair with h1 h2
    subst h1
    subst h2
    have hmem : Z ∈ (s.nodes nd).free_list i := by rw [hl]; exact List.mem_cons_self Z rest
    obtain ⟨hbud, hord, hpf, hndlt, hilt, halign⟩ := hc1 nd i Z hmem
    refine ⟨rfl, rfl, rfl, nd, i, le_of_lt hoi, hmem, hpf, ?_, ?_⟩
    · simp only [Function.update_same]
      rw [split_push_free_pages]
    · calc 2 ^ order ≤ 2 ^ i :=
        Nat.pow_le_pow_right (by norm_num) (le_of_lt hoi)
      _ = 1 * 2 ^ i := (Nat.one_mul _).symm
      _ ≤ (s.nodes nd).free_count i * 2 ^ i := Nat.mul_le_mul_right _ (by omega)
      _ ≤ free_list_pages (s.nodes nd) s.maxOrder := term_le_free_list_pages _ _ _ hilt
      _ = (s.nodes nd).free_pages := (hb nd hndlt).symm

/-- Unpacking a successful fallback allocation. -/
lemma fallback_scan_post {s : MemState} {node order X : Nat} {s1 : MemState}
    (hinv : MemInv s) :
    ∀ fuel i, fallback_scan s node order fuel i = some (X, s1) →
      AllocPost s s1 X order := by
  intro fuel
  induction fuel with
  | zero => intro i h; exact absurd h (by simp [fallback_scan])
  | succ f ih =>
    intro i h
    rw [fallback_scan] at h
    rcases hstrict : numa_alloc_pages_strict s (s.fallback node i) order with _ | r
    · rw [hstrict] at h
      exact ih (i + 1) h
    · rw [hstrict] at h
      injection h with h1
      subst h1
      unfold numa_alloc_pages_strict at hstrict
      by_cases hn : s.numNodes ≤ s.fallback node i
      · rw [if_pos hn] at hstrict; exact absurd hstrict (by simp)
      · rw [if_neg hn] at hstrict
        exact node_pop_post hinv hstrict

/-- Any successful `numa_alloc_pages` satisfies the post-state
description. -/
lemma numa_alloc_pages_post {s : MemState} {node order X : Nat} {s1 : MemState}
    (hinv : MemInv s) (h : numa_alloc_pages s node order = some (X, s1)) :
    AllocPost s s1 X order := by
  unfold numa_alloc_pages at h
  rcases hp : node_pop s node order with _ | r
  · rw [hp] at h
    rcases hs : split_scan s node order (s.maxOrder - (order + 1)) (order + 1) with _ | r2
    · rw [hs] at h
      exact fallback_scan_post hinv _ _ h
    · rw [hs] at h
      injection h with h1
      subst h1
      exact split_scan_post hinv _ _ (Nat.lt_succ_self order) hs
  · rw [hp] at h
    injection h with h1
    subst h1
    exact node_pop_post hinv hp

/-- After an allocation from a well-formed state, the returned block's
buddy at the allocated order is never flagged free at that order, so the
immediately following free does not merge. -/
lemma alloc_no_merge {s0 s1 : MemState} {X order : Nat}
    (hinv : MemInv s0) (hpost : AllocPost s0 s1 X order) :
    ¬((s1.page (X ^^^ 2 ^ order)).buddy = true ∧
      (s1.page (X ^^^ 2 ^ order)).order = order) := by
  obtain ⟨hpage, hpfn, hmax, m, i, hoi, hmem, hXm, hfp, hge⟩ := hpost
  rw [hpage]
  rintro ⟨hflag, horder⟩
  obtain ⟨ha, hb, hc1, hc2, hd, he⟩ := hinv
  have hYmem := hc2 (X ^^^ 2 ^ order) hflag
  rw [horder] at hYmem
  rcases Nat.eq_or_lt_of_le hoi with heq | hlt
  · subst heq
    exact hd m _ order X (X ^^^ 2 ^ order) hmem hYmem rfl
  · obtain ⟨hbud, hord, hpf, hndlt, hilt, halign⟩ := hc1 m i X hmem
    have halign2 : X % 2 ^ (order + 1) = 0 :=
      Nat.mod_eq_zero_of_dvd
        (dvd_trans (pow_dvd_pow 2 (by omega)) (Nat.dvd_of_mod_eq_zero halign))
    have hY : X ^^^ 2 ^ order = X + 2 ^ order := xor_two_pow_of_align X order halign2
    rw [hY] at hYmem
    exact he m _ i order X (X + 2 ^ order) hmem hYmem
      (Nat.lt_add_of_pos_right (Nat.pos_pow_of_pos order (by norm_num)))
      (Nat.add_lt_add_left (Nat.pow_lt_pow_right (by norm_num) hlt) X)

/-- When the first buddy check fails, the merge loop is the identity. -/
lemma merge_loop_no_merge (nd fuel pfn order : Nat) (s : MemState)
    (h : ¬((s.page (pfn ^^^ 2 ^ order)).buddy = true ∧
           (s.page (pfn ^^^ 2 ^ order)).order = order)) :
    merge_loop nd fuel pfn order s = (pfn, order, s) := by
  cases fuel with
  | zero => rfl
  | succ f =>
    rw [merge_loop, if_neg h]

/-- A free that does not merge credits the freed node's `free_pages` by
exactly `2^order`. -/
lemma numa_free_pages_no_merge (s : MemState) (X order : Nat)
    (h : ¬((s.page (X ^^^ 2 ^ order)).buddy = true ∧
           (s.page (X ^^^ 2 ^ order)).order = order)) :
    ((numa_free_pages s X order).nodes (s.pfnNode X)).free_pages =
      (s.nodes (s.pfnNode X)).free_pages + 2 ^ order := by
  unfold numa_free_pages
  rw [merge_loop_no_merge _ _ _ _ _ h]
  simp [Function.update_same]

/-- Claim C4: starting from a state satisfying the documented allocator
invariants, if `numa_alloc_pages` succeeds for order `k`, then freeing the
returned block at order `k` restores the satisfying node's `free_pages`
counter to its value before the allocation (the satisfying node being the
returned block's node, `page->numa_node`, which is also where
`numa_free_pages` returns it). -/
theorem numa_alloc_free_roundtrip (s0 : MemState) (node order X : Nat) (s1 : MemState)
    (hinv : MemInv s0) (halloc : numa_alloc_pages s0 node order = some (X, s1)) :
    ((numa_free_pages s1 X order).nodes (s0.pfnNode X)).free_pages =
      (s0.nodes (s0.pfnNode X)).free_pages := by
  have hpost := numa_alloc_pages_post hinv halloc
  have hnm := alloc_no_merge hinv hpost
  obtain ⟨hpage, hpfn, hmax, m, i, hoi, hmem, hXm, hfp, hge⟩ := hpost
  have hfree := numa_free_pages_no_merge s1 X order hnm
  rw [hpfn, hXm] at hfree
  rw [hXm, hfree, hfp]
  exact Nat.sub_add_cancel hge

/-- Witness for claim C4: the order-0 round trip on a one-node state with
a single free flagged block at frame 4. -/
theorem numa_alloc_free_roundtrip_witness :
    ((numa_free_pages exMemRound1 4 0).nodes (exMemRound.pfnNode 4)).free_pages =
      (exMemRound.nodes (exMemRound.pfnNode 4)).free_pages := by
  refine numa_alloc_free_roundtrip exMemRound 0 0 4 exMemRound1 ?_ rfl
  have hchar : ∀ nd k p, p ∈ (exMemRound.nodes nd).free_list k → nd = 0 ∧ k = 0 ∧ p = 4 := by
    intro nd k p hp
    by_cases hnd : nd = 0
    · by_cases hk : k = 0
      · subst hnd
        subst hk
        simp [exMemRound] at hp
        exact ⟨rfl, rfl, hp⟩
      · simp [exMemRound, hnd, hk] at hp
    · simp [exMemRound, hnd] at hp
  refine ⟨?_, ?_, ?_, ?_, ?_, ?_⟩
  · intro nd k
    by_cases hnd : nd = 0 <;> by_cases hk : k = 0 <;> simp [exMemRound, hnd, hk]
  · intro nd hnd
    have h0 : nd = 0 := by
      simp [exMemRound] at hnd
      omega
    subst h0
    rfl
  · intro nd k p hp
    obtain ⟨rfl, rfl, rfl⟩ := hchar nd k p hp
    exact ⟨by decide, by decide, by decide, by decide, by decide, by decide⟩
  · intro p hp
    by_cases hp4 : p = 4
    · subst hp4
      decide
    · simp [exMemRound, hp4] at hp
  · intro nd1 nd2 k p q hp hq
    obtain ⟨rfl, rfl, rfl⟩ := hchar _ _ _ hp
    obtain ⟨-, -, rfl⟩ := hchar _ _ _ hq
    decide
  · intro nd1 nd2 k1 k2 p q hp hq hlt1 hlt2
    obtain ⟨rfl, rfl, rfl⟩ := hchar _ _ _ hp
    obtain ⟨-, -, rfl⟩ := hchar _ _ _ hq
    exact absurd hlt1 (by decide)
